import Mathlib

/-!
A shallow embedding of `src/wami/app.js` (the WAMI image-flow web app) and
proofs about its orchestration layer: the flow/step data model, the intent
resolver (`parseWebWamiUrl`, `determineFlowConfiguration`,
`createOrNavigateToFlow`), the share-cache consumer
(`loadAndProcessSharedImages`, `cleanupShareCache`,
`processShareTargetData`), the editor commit (`handleFlowChange`), the
save-in-place and view-images button handlers, and an event-step machine
for the run-flow button.  JS strings are modelled as Lean `String`s
(faithful for the ASCII data the claims exercise); the platform builtins
the source calls (`parseInt`, `decodeURIComponent`, `String.prototype`
methods, `Array.prototype.sort`) are modelled by explicit executable
functions documented at their definitions.  Store writes (`saveFlows`) and
id generation (`getUniqueId`) are collaborators outside `src/`; they enter
as an explicit environment (`ShareEnv`).
-/

namespace Wami

/-- A primitive step-parameter value.  The JS code stores numbers in steps
built by the intent resolver and strings in steps read back from the
editor's `<input>`/`<select>` fields. -/
inductive PVal where
  | num (n : Int)
  | str (s : String)
  deriving DecidableEq, Repr

/-- A step of a flow: `{ type, params }` (app.js builds these objects in
`handleFlowChange`, `parseWebWamiUrl` and `determineFlowConfiguration`). -/
structure Step where
  type : String
  params : List PVal
  deriving DecidableEq, Repr

/-- A flow: `{ id, name, steps }` (see `createNewFlow`, app.js 194-209). -/
structure Flow where
  id : Int
  name : String
  steps : List Step
  deriving DecidableEq, Repr

/-- A binary body with its declared content type (a JS `Blob`). -/
structure Blob where
  type : String
  content : String
  deriving DecidableEq, Repr

/-- A JS `File`: a blob that also carries a name. -/
structure JFile where
  name : String
  type : String
  content : String
  deriving DecidableEq, Repr

/-- An entry of `currentImages`: the file plus the resolved value of its
`fsHandlePromise` (`none` models `Promise.resolve(null)`, `some h` a
present file-system handle with identity `h`). -/
structure InputImage where
  file : JFile
  fsHandle : Option Nat
  deriving DecidableEq, Repr

/-- An entry of `outputImages`: `{ blob, name }` as returned by the flow
engine. -/
structure OutFile where
  name : String
  blob : String
  deriving DecidableEq, Repr

/-! ### Models of the JS string builtins used by the intent resolver -/

/-- Model of JS `String.prototype.split` with a one-character separator
(the source only splits on `'?'` and `'/'`).  As in JS, splitting the
empty string yields `[""]` and separators at the ends yield empty
fields. -/
def splitOnChar (c : Char) : List Char → List (List Char)
  | [] => [[]]
  | x :: rest =>
    let r := splitOnChar c rest
    if x = c then [] :: r
    else
      match r with
      | [] => [[x]]
      | h :: t => (x :: h) :: t

/-- Model of JS `String.prototype.trim`, faithful for ASCII whitespace
(the only whitespace the exercised inputs contain). -/
def jsTrim (s : String) : String :=
  String.mk (((s.data.dropWhile Char.isWhitespace).reverse.dropWhile Char.isWhitespace).reverse)

/-- Helper for `strIncludes`: does `sub` occur as a contiguous run inside
`l`? -/
def listIncludes (l sub : List Char) : Bool :=
  match l with
  | [] => sub.isEmpty
  | c :: rest => List.isPrefixOf sub (c :: rest) || listIncludes rest sub

/-- Model of JS `String.prototype.includes`: substring containment. -/
def strIncludes (s sub : String) : Bool :=
  listIncludes s.data sub.data

/-- Model of JS `String.prototype.startsWith`. -/
def strStartsWith (s p : String) : Bool :=
  List.isPrefixOf p.data s.data

/-- Model of JS `String.prototype.toLowerCase`, faithful for ASCII input
(the URL commands the lowered string is compared against are ASCII). -/
def jsToLower (s : String) : String :=
  String.mk (s.data.map Char.toLower)

/-- Value of an ASCII hex digit. -/
def hexDigitVal (c : Char) : Option Nat :=
  if '0' ≤ c ∧ c ≤ '9' then some (c.toNat - '0'.toNat)
  else if 'a' ≤ c ∧ c ≤ 'f' then some (c.toNat - 'a'.toNat + 10)
  else if 'A' ≤ c ∧ c ≤ 'F' then some (c.toNat - 'A'.toNat + 10)
  else none

/-- Model of the platform builtin `decodeURIComponent`, restricted to
single-byte percent escapes.  A malformed escape is kept literally (real
JS would throw a `URIError` there, and multi-byte UTF-8 escapes decode to
one character instead of two; no claim exercises either case). -/
def percentDecode : List Char → List Char
  | [] => []
  | '%' :: h1 :: h2 :: rest =>
    match hexDigitVal h1, hexDigitVal h2 with
    | some a, some b => Char.ofNat (16 * a + b) :: percentDecode rest
    | _, _ => '%' :: h1 :: h2 :: percentDecode rest
  | '%' :: h1 :: rest => '%' :: h1 :: percentDecode rest
  | c :: rest => c :: percentDecode rest

/-- Model of `decodeURIComponent` on strings. -/
def decodeURIComponent (s : String) : String :=
  String.mk (percentDecode s.data)

/-- Helper for `collapseSlashRuns`: `inRun` records whether the previous
character was part of a slash run whose space was already emitted. -/
def collapseSlashAux : Bool → List Char → List Char
  | _, [] => []
  | inRun, c :: rest =>
    if c = '/' then
      if inRun then collapseSlashAux true rest
      else ' ' :: collapseSlashAux true rest
    else c :: collapseSlashAux false rest

/-- Model of `.replace(/\/+/g, ' ')` (app.js 522): each maximal run of
slashes becomes a single space. -/
def collapseSlashRuns (l : List Char) : List Char :=
  collapseSlashAux false l

/-- Model of the platform builtin `parseInt` (radix-10 behaviour: skip
leading whitespace, optional sign, then leading decimal digits; `none`
models `NaN`; `parseInt(undefined)` parses the string "undefined" and is
`NaN`).  The hex-literal special case of `parseInt` is not modelled; no
claim exercises it. -/
def jsParseInt (s : Option String) : Option Int :=
  match s with
  | none => none
  | some str =>
    let l := str.data.dropWhile Char.isWhitespace
    let signAndRest : Int × List Char :=
      match l with
      | '-' :: r => (-1, r)
      | '+' :: r => (1, r)
      | _ => (1, l)
    let digits := signAndRest.2.takeWhile Char.isDigit
    if digits.isEmpty then none
    else
      some (signAndRest.1 *
        Int.ofNat (digits.foldl (fun acc c => acc * 10 + (c.toNat - '0'.toNat)) 0))

/-- Model of the JS idiom `x || d` for an optional string `x`: a missing
field and the empty string are both falsy. -/
def jsOrStr (x : Option String) (d : String) : String :=
  match x with
  | some s => if s = "" then d else s
  | none => d

/-! ### The intent resolver (app.js 482-557, 660-670) -/

/-- The `extensions` object literal of `getFileExtension`
(app.js 661-667). -/
def extensionsTable : List (String × String) :=
  [("image/jpeg", "jpg"), ("image/png", "png"), ("image/gif", "gif"),
   ("image/webp", "webp"), ("image/svg+xml", "svg")]

/-- Embedding of `getFileExtension` (app.js 660-670): fixed type-to-
extension table, unknown types default to `"jpg"`. -/
def getFileExtension (mimeType : String) : String :=
  match extensionsTable.find? (fun p => p.1 == mimeType) with
  | some p => p.2
  | none => "jpg"

/-- The `{ title, steps }` object returned by `parseWebWamiUrl`. -/
structure ParseResult where
  title : String
  steps : List Step
  deriving DecidableEq, Repr

/-- Embedding of `parseWebWamiUrl` (app.js 510-557): strip the
`web+wami://` prefix, split off query parameters, dispatch on the
lowercased first path segment by substring matching in the source's fixed
order, and use the percent-decoded path (slash runs collapsed to single
spaces, trimmed) as the flow title. -/
def parseWebWamiUrl (url : String) : Option ParseResult :=
  let urlPath : List Char := url.data.drop ("web+wami://".length)
  if urlPath.isEmpty || jsTrim (String.mk urlPath) = "" then none
  else
    let pathParts : List (List Char) := splitOnChar '/' ((splitOnChar '?' urlPath).headD [])
    let mainCommand : String := jsToLower (String.mk (pathParts.headD []))
    let title : String := jsTrim (String.mk (collapseSlashRuns (percentDecode urlPath)))
    let steps : List Step :=
      if strIncludes mainCommand "rotate" then [⟨"rotate", [PVal.num 90]⟩]
      else if strIncludes mainCommand "flip" then [⟨"flip", []⟩]
      else if strIncludes mainCommand "paint" then [⟨"paint", [PVal.num 5]⟩]
      else if strIncludes mainCommand "sepia" then [⟨"sepia-tone", [PVal.num 80]⟩]
      else if strIncludes mainCommand "blur" then [⟨"blur", [PVal.num 3]⟩]
      else if strIncludes mainCommand "negate" then [⟨"negate", []⟩]
      else if strIncludes mainCommand "resize" then
        let width : Int :=
          match jsParseInt ((pathParts[1]?).map String.mk) with
          | some w => if w = 0 then 1000 else w
          | none => 1000
        [⟨"resize-width-if-larger", [PVal.num width]⟩]
      else [⟨"resize-width-if-larger", [PVal.num 1000]⟩]
    some ⟨title, steps⟩

/-- The `shareData` manifest: `{ fileCount, fileNames?, title?, url? }`
(JSON read from the `"shareData"` cache entry). -/
structure ShareData where
  fileCount : Int
  fileNames : Option (List String)
  title : Option String
  url : Option String
  deriving DecidableEq, Repr

/-- Embedding of `determineFlowConfiguration` (app.js 482-507): default
title `shareData.title || 'Shared Images Flow'` and default step
`resize-width-if-larger [1000]`, overridden by a successful
`parseWebWamiUrl` parse when `shareData.url` is a non-blank string with
the reserved scheme prefix. -/
def determineFlowConfiguration (shareData : ShareData) : String × List Step :=
  let flowTitle := jsOrStr shareData.title "Shared Images Flow"
  let flowSteps : List Step := [⟨"resize-width-if-larger", [PVal.num 1000]⟩]
  match shareData.url with
  | none => (flowTitle, flowSteps)
  | some u =>
    if u ≠ "" ∧ jsTrim u ≠ "" then
      let url := jsTrim u
      if strStartsWith url "web+wami://" then
        match parseWebWamiUrl url with
        | some result => (result.title, result.steps)
        | none => (flowTitle, flowSteps)
      else (flowTitle, flowSteps)
    else (flowTitle, flowSteps)

/-! ### Flow creation and reuse (app.js 194-209, 560-598) -/

/-- The collaborators of one share-target activation, as the activation
sees them: whether the app was launched with `?share=true`, whether the
`saveFlows` store write succeeds (a failing write throws inside the
handler's `try` block), and the id `getUniqueId` returns for a flow
created during the activation. -/
structure ShareEnv where
  isShared : Bool
  saveFlowsOk : Bool
  freshId : Int
  deriving DecidableEq, Repr

/-- Embedding of `createNewFlow` (app.js 194-209).  The in-memory `flows`
array is mutated by `push` before `saveFlows` is awaited, so a failing
store write leaves the new flow in memory: the `error` value carries the
mutated list.  `name || 'Untitled flow'` makes an empty name fall back to
the default; the `steps || []` guard never fires because every caller
passes an array. -/
def createNewFlow (env : ShareEnv) (flows : List Flow) (name : String)
    (steps : List Step) : Except (List Flow) (List Flow × Flow) :=
  let newFlow : Flow := ⟨env.freshId, if name = "" then "Untitled flow" else name, steps⟩
  let flows1 := flows ++ [newFlow]
  if env.saveFlowsOk then .ok (flows1, newFlow) else .error flows1

/-- In-place replacement of the first list element satisfying `p`: models
mutating the object returned by `Array.prototype.find` (the first match)
while it sits in the array. -/
def replaceFirst {α : Type} (p : α → Bool) (v : α) : List α → List α
  | [] => []
  | x :: rest => if p x then v :: rest else x :: replaceFirst p v rest

/-- Embedding of `createOrNavigateToFlow` (app.js 560-598).  `find` by
exact name; on a hit the found object's `steps` are overwritten in place
(`replaceFirst`), the array slot located by `findIndex` on `id` is
(re)assigned, and the collection is saved; on a miss `createNewFlow` runs.
`shouldAutoProcess` is the source's hard-wired `true`; a failing
`saveFlows` throws, and the `error` value carries the already-mutated
in-memory list.  Navigation (`navigateToFlow`) is a pure UI effect and is
not part of the value. -/
def createOrNavigateToFlow (env : ShareEnv) (flows : List Flow) (flowTitle : String)
    (flowSteps : List Step) : Except (List Flow) (List Flow × Flow) :=
  let shouldAutoProcess := true
  match flows.find? (fun flow => flow.name == flowTitle) with
  | some existingFlow =>
    if shouldAutoProcess then
      let updated : Flow := { existingFlow with steps := flowSteps }
      let flows1 := replaceFirst (fun flow => flow.name == flowTitle) updated flows
      let flows2 :=
        match flows1.findIdx? (fun flow => flow.id == updated.id) with
        | some flowIndex => flows1.set flowIndex updated
        | none => flows1
      if env.saveFlowsOk then .ok (flows2, updated) else .error flows2
    else .ok (flows, existingFlow)
  | none => createNewFlow env flows flowTitle flowSteps

/-! ### The transfer cache and the share-target consumer (app.js 435-479,
601-657) -/

/-- A cached response body: either the JSON manifest stored under
`"shareData"` (`manifest none` is a body whose `.json()` throws) or a
binary body stored under a `"file-<i>"` key. -/
inductive CacheEntry where
  | manifest (d : Option ShareData)
  | blob (b : Blob)
  deriving DecidableEq, Repr

/-- The transfer cache: a keyed store of response bodies. -/
abbrev Cache := List (String × CacheEntry)

/-- Model of `cache.match(key)`: the response stored under `key`. -/
def cacheMatch (cache : Cache) (key : String) : Option CacheEntry :=
  (cache.find? (fun p => p.1 == key)).map (fun p => p.2)

/-- Model of `cache.delete(key)`. -/
def cacheDelete (cache : Cache) (key : String) : Cache :=
  cache.filter (fun p => p.1 != key)

/-- Key of the i-th staged blob. -/
def fileKey (i : Nat) : String := "file-" ++ toString i

/-- Embedding of `cleanupShareCache` (app.js 652-657): delete the manifest
entry, then the `fileCount` indexed blob entries. -/
def cleanupShareCache (shareCache : Cache) (shareData : ShareData) : Cache :=
  (List.range shareData.fileCount.toNat).foldl
    (fun c i => cacheDelete c (fileKey i))
    (cacheDelete shareCache "shareData")

/-- Model of `response.json()` on a cached entry: `some d` when the body
parses as a manifest, `none` when parsing throws. -/
def entryJson : CacheEntry → Option ShareData
  | .manifest d => d
  | .blob _ => none

/-- Model of `response.blob()` on a cached entry: a binary entry yields
its blob; a JSON body reads back as an `application/json` blob. -/
def entryBlob : CacheEntry → Blob
  | .blob b => b
  | .manifest _ => ⟨"application/json", ""⟩

/-- The generated fallback file name `shared-<i+1>.<ext>`
(app.js 618). -/
def sharedFallbackName (i : Nat) (b : Blob) : String :=
  "shared-" ++ toString (i + 1) ++ "." ++ getFileExtension b.type

/-- One iteration of the load loop of `loadAndProcessSharedImages`
(app.js 605-630): `none` when `file-<i>` is not in the cache; otherwise
the truthiness test `shareData.fileNames && shareData.fileNames[i]` picks
the stored name only when the `fileNames` field exists and its i-th entry
is a non-empty string, and the image's `fsHandlePromise` is
`Promise.resolve(null)`. -/
def loadSharedImage (shareCache : Cache) (shareData : ShareData) (i : Nat) :
    Option InputImage :=
  match cacheMatch shareCache (fileKey i) with
  | none => none
  | some e =>
    let blob := entryBlob e
    let fileName : String :=
      match shareData.fileNames with
      | some names =>
        match names[i]? with
        | some nm => if nm = "" then sharedFallbackName i blob else nm
        | none => sharedFallbackName i blob
      | none => sharedFallbackName i blob
    some ⟨⟨fileName, blob.type, blob.content⟩, none⟩

/-- Embedding of `loadAndProcessSharedImages` (app.js 601-649), restricted
to its data effect: the images pushed onto `imagesToStore`, in index
order.  Publishing them to the UI and the deferred auto-run click are not
part of this value (the auto-run is a later `click` event of the run
machine below). -/
def loadAndProcessSharedImages (shareCache : Cache) (shareData : ShareData) :
    List InputImage :=
  (List.range shareData.fileCount.toNat).filterMap (loadSharedImage shareCache shareData)

/-- Observable outcome of one `processShareTargetData` activation: the
transfer cache and flow collection after it, the input batch it published
(when non-empty, mirroring the `imagesToStore.length > 0` guard), and
whether the `?share=true` marker was scrubbed from the URL
(`history.replaceState`, app.js 478). -/
structure ShareResult where
  cache : Cache
  flows : List Flow
  currentImages : Option (List InputImage)
  urlScrubbed : Bool
  deriving DecidableEq, Repr

/-- Embedding of `processShareTargetData` (app.js 435-479).  Control flow
of the source: no `?share=true` marker, a missing manifest, and
`fileCount <= 0` are early `return`s that skip everything below them,
including the URL scrub on line 478; an exception thrown inside the `try`
(a `.json()` parse failure, or a failing `saveFlows` inside
`createOrNavigateToFlow`) jumps to the `catch`, skipping
`cleanupShareCache`, and then the scrub runs. -/
def processShareTargetData (env : ShareEnv) (cache : Cache) (flows : List Flow) :
    ShareResult :=
  if !env.isShared then ⟨cache, flows, none, false⟩
  else
    match cacheMatch cache "shareData" with
    | none => ⟨cache, flows, none, false⟩
    | some entry =>
      match entryJson entry with
      | none => ⟨cache, flows, none, true⟩
      | some shareData =>
        if shareData.fileCount ≤ 0 then ⟨cache, flows, none, false⟩
        else
          let conf := determineFlowConfiguration shareData
          match createOrNavigateToFlow env flows conf.1 conf.2 with
          | .error flows1 => ⟨cache, flows1, none, true⟩
          | .ok (flows1, _targetFlow) =>
            let imagesToStore := loadAndProcessSharedImages cache shareData
            let cache1 := cleanupShareCache cache shareData
            ⟨cache1, flows1,
              if imagesToStore.isEmpty then none else some imagesToStore, true⟩

/-- The amended scrub condition, stated from the amended claim's words:
the `?share=true` marker is scrubbed exactly when the activation is a
share activation whose manifest entry exists and either fails to parse
(the caught-exception path) or declares a positive `fileCount`; the
missing-manifest and non-positive-count early returns skip the scrub. -/
def scrubHappens (env : ShareEnv) (cache : Cache) : Bool :=
  env.isShared &&
    match cacheMatch cache "shareData" with
    | none => false
    | some e =>
      match entryJson e with
      | none => true
      | some d => decide (0 < d.fileCount)

/-! ### Editor commit (app.js 125-148) -/

/-- The editor form state read by `handleFlowChange`: for each `.step`
element its `data-type` tag and the values of its param inputs (always
strings in the DOM), plus the `.flow-name` field. -/
structure EditorState where
  stepElements : List (String × List String)
  flowName : String
  deriving DecidableEq, Repr

/-- Embedding of `handleFlowChange` (app.js 125-148): rebuild the current
flow's steps and name from the form, locate the flow by `id` in the
collection with `findIndex`, and replace that slot.  A `findIndex` miss
makes `flows[-1] = ...` a plain property write in JS, which leaves every
array element and the length unchanged.  Returns the updated flow and the
collection passed to `saveFlows`. -/
def handleFlowChange (ed : EditorState) (currentFlow : Flow) (flows : List Flow) :
    Flow × List Flow :=
  let updatedFlow : Flow :=
    { currentFlow with
        steps := ed.stepElements.map (fun se => ⟨se.1, se.2.map PVal.str⟩),
        name := ed.flowName }
  match flows.findIdx? (fun f => f.id == currentFlow.id) with
  | some flowIndex => (updatedFlow, flows.set flowIndex updatedFlow)
  | none => (updatedFlow, flows)

/-! ### Save-in-place (app.js 360-380) -/

/-- The loop body of the `saveImagesButton` handler (app.js 373-379):
processes the outputs in order and returns the writes performed (target
handle, bytes) and whether the loop threw.  For each output, `find` looks
up the FIRST input with the same file name; a miss makes
`.fsHandlePromise` of `undefined` throw, and a `null` handle makes
`handle.createWritable()` throw.  Writes completed before the throw are
kept — there is no rollback. -/
def saveLoop (currentImages : List InputImage) : List OutFile → List (Nat × String) × Bool
  | [] => ([], false)
  | outputImage :: rest =>
    match currentImages.find? (fun i => i.file.name == outputImage.name) with
    | none => ([], true)
    | some img =>
      match img.fsHandle with
      | none => ([], true)
      | some h =>
        let r := saveLoop currentImages rest
        ((h, outputImage.blob) :: r.1, r.2)

/-- Embedding of the `saveImagesButton` click handler (app.js 362-380):
bail out when there are no outputs (`hasImagesToSave`), bail out when the
input and output counts differ, otherwise run the write loop. -/
def saveImagesClick (currentImages : List InputImage) (outputImages : List OutFile) :
    List (Nat × String) × Bool :=
  if outputImages.length = 0 then ([], false)
  else if currentImages.length ≠ outputImages.length then ([], false)
  else saveLoop currentImages outputImages

/-- The save precondition exactly as the spec words `canSaveInPlace`:
equal counts, and every output's name matches some input's file name
whose handle resolves to present.  Stated from the spec, for comparison
with the code's behaviour. -/
def canSaveInPlace (inputs : List InputImage) (outputs : List OutFile) : Prop :=
  inputs.length = outputs.length ∧
    ∀ o ∈ outputs, ∃ i ∈ inputs, i.file.name = o.name ∧ i.fsHandle.isSome = true

/-- The per-output condition the code actually checks before writing: the
FIRST input whose file name equals the output's name exists and carries a
present handle. -/
def firstMatchHasHandle (inputs : List InputImage) (o : OutFile) : Bool :=
  match inputs.find? (fun i => i.file.name == o.name) with
  | some img => img.fsHandle.isSome
  | none => false

/-- The write the handler performs for one output when it does not throw:
the blob goes to the handle of the first name-matching input. -/
def expectedWrite (inputs : List InputImage) (o : OutFile) : Option (Nat × String) :=
  (inputs.find? (fun i => i.file.name == o.name)).bind
    (fun img => img.fsHandle.map (fun h => (h, o.blob)))

/-! ### The run-flow button machine (app.js 74-103)

The handler runs on one JS thread: from the click up to the
`await runFlow(...)` suspension it is synchronous (clear the output
display, add the `running` class, set `disabled`), so that prefix is
atomic with the click event.  `started`/`outputsPublished` log entries,
`published`, and `startedRuns` are history (ghost) fields that record what
happened, so temporal claims can be stated about a trace. -/

/-- Chronological history entries: run `k` started / run `k`'s outputs
were handed to `populateOutputImages`. -/
inductive RunLogEntry where
  | started (k : Nat)
  | outputsPublished (k : Nat)
  deriving DecidableEq, Repr

/-- State of the run-flow button machine.  `images` is `currentImages`
(names only — the engine is external), `outputImages` the variable of the
same name, `displayed` what `populateOutputImages` last showed,
`buttonDisabled` the `disabled` property of the run button, `running` the
`running` class on the document element, `inFlight` the pending
`await runFlow` continuation (carrying its ghost run index). -/
structure RunMachine where
  images : List String
  displayed : List String
  outputImages : List String
  published : List (Nat × List String)
  running : Bool
  buttonDisabled : Bool
  inFlight : Option Nat
  startedRuns : Nat
  log : List RunLogEntry
  deriving DecidableEq, Repr

/-- Events of the machine: `click` is a user or programmatic click on the
run button (per the HTML spec, a click on a `disabled` button — including
`HTMLElement.click()`, used by the share auto-run — dispatches nothing);
`engineDone r` resumes the handler when `runFlow` settles, `none` being
the falsy `processedFiles` of an engine failure; `setImages l` is any of
the input-loading handlers assigning `currentImages` (they are not
disabled while a run is in flight). -/
inductive RunEvent where
  | click
  | engineDone (result : Option (List String))
  | setImages (l : List String)
  deriving DecidableEq, Repr

/-- Initial state: nothing loaded, button enabled, no run yet. -/
def initRunMachine : RunMachine := ⟨[], [], [], [], false, false, none, 0, []⟩

/-- One event step of the run-flow button (app.js 74-103). -/
def runStep (s : RunMachine) : RunEvent → RunMachine
  | .click =>
    if s.buttonDisabled then s
    else if s.images.isEmpty then s
    else
      { s with
          displayed := [],
          running := true,
          buttonDisabled := true,
          inFlight := some s.startedRuns,
          startedRuns := s.startedRuns + 1,
          log := s.log ++ [.started s.startedRuns] }
  | .engineDone result =>
    match s.inFlight with
    | none => s
    | some k =>
      match result with
      | some outs =>
        { s with
            outputImages := outs,
            displayed := outs,
            published := s.published ++ [(k, outs)],
            running := false,
            buttonDisabled := false,
            inFlight := none,
            log := s.log ++ [.outputsPublished k] }
      | none =>
        { s with running := false, buttonDisabled := false, inFlight := none }
  | .setImages l => { s with images := l }

/-- The state after a sequence of events from app start. -/
def runTrace (events : List RunEvent) : RunMachine :=
  events.foldl runStep initRunMachine

/-- The chronological ordering the supersession claim needs: whenever a
`started j` entry precedes an `outputsPublished k` entry in the history,
the published run is not an earlier run than the started one. -/
def NoStalePublish (log : List RunLogEntry) : Prop :=
  log.Pairwise (fun a b => ∀ j k, a = RunLogEntry.started j →
    b = RunLogEntry.outputsPublished k → j ≤ k)

/-- Invariant of every reachable state of the run machine. -/
def RunInv (s : RunMachine) : Prop :=
  s.buttonDisabled = s.inFlight.isSome ∧
  s.running = s.inFlight.isSome ∧
  (∀ k, s.inFlight = some k → k + 1 = s.startedRuns ∧ s.displayed = []) ∧
  (∀ e ∈ s.log, ∀ k, (e = RunLogEntry.started k ∨ e = RunLogEntry.outputsPublished k) →
    k < s.startedRuns) ∧
  NoStalePublish s.log

/-! ### View images (app.js 410-432) -/

/-- The pieces of session state the `viewImagesButton` handler touches. -/
structure ViewState where
  currentImages : List InputImage
  outputImages : List OutFile
  deriving DecidableEq, Repr

/-- Embedding of the `viewImagesButton` click handler (app.js 410-432),
restricted to its state effect: `Array.prototype.sort` sorts both arrays
in place (modelled with the stable `mergeSort`, matching the ES2019
stable-sort requirement).  `lc a b` abstracts the source comparator
`a.localeCompare(b) <= 0`. -/
def viewImagesClick (lc : String → String → Bool) (st : ViewState) : ViewState :=
  if st.outputImages.length = 0 then st
  else
    { st with
        outputImages := st.outputImages.mergeSort (fun a b => lc a.name b.name),
        currentImages := st.currentImages.mergeSort (fun a b => lc a.file.name b.file.name) }

/-- The file list a subsequent run-button click hands to the engine:
`currentImages.map(i => i.file)` in stored order (app.js 84-89). -/
def runEngineInputs (st : ViewState) : List JFile :=
  st.currentImages.map (fun i => i.file)

/-! ## Theorems

General facts about the transfer cache. -/

theorem cacheMatch_eq_none_iff (c : Cache) (k : String) :
    cacheMatch c k = none ↔ ∀ p ∈ c, p.1 ≠ k := by
  simp [cacheMatch, List.find?_eq_none]

theorem cacheDelete_preserves_none {c : Cache} {k : String} (k2 : String)
    (h : cacheMatch c k = none) : cacheMatch (cacheDelete c k2) k = none := by
  rw [cacheMatch_eq_none_iff] at h ⊢
  intro p hp
  exact h p (List.mem_of_mem_filter hp)

theorem cacheDelete_self_none (c : Cache) (k : String) :
    cacheMatch (cacheDelete c k) k = none := by
  rw [cacheMatch_eq_none_iff]
  intro p hp
  rcases List.mem_filter.mp hp with ⟨_, hne⟩
  simpa using hne

theorem cacheMatch_foldl_delete_none (l : List Nat) (c : Cache) (k : String)
    (h : cacheMatch c k = none) :
    cacheMatch (l.foldl (fun c2 i => cacheDelete c2 (fileKey i)) c) k = none := by
  induction l generalizing c with
  | nil => exact h
  | cons j rest ih => exact ih _ (cacheDelete_preserves_none _ h)

theorem cacheMatch_foldl_delete_mem (l : List Nat) (c : Cache) (i : Nat) (h : i ∈ l) :
    cacheMatch (l.foldl (fun c2 j => cacheDelete c2 (fileKey j)) c) (fileKey i) = none := by
  induction l generalizing c with
  | nil => cases h
  | cons j rest ih =>
    rcases List.mem_cons.mp h with rfl | hmem
    · exact cacheMatch_foldl_delete_none rest _ _ (cacheDelete_self_none _ _)
    · exact ih _ hmem

/-- `cleanupShareCache` removes the manifest entry and every indexed blob
entry below `fileCount`. -/
theorem cleanupShareCache_clears (c : Cache) (d : ShareData) :
    cacheMatch (cleanupShareCache c d) "shareData" = none ∧
    ∀ i < d.fileCount.toNat, cacheMatch (cleanupShareCache c d) (fileKey i) = none := by
  refine ⟨cacheMatch_foldl_delete_none _ _ _ (cacheDelete_self_none _ _), ?_⟩
  intro i hi
  exact cacheMatch_foldl_delete_mem _ _ _ (List.mem_range.mpr hi)

/-- With a succeeding store, `createOrNavigateToFlow` never throws. -/
theorem createOrNavigateToFlow_ok (env : ShareEnv) (flows : List Flow) (t : String)
    (st : List Step) (hsave : env.saveFlowsOk = true) :
    ∃ r, createOrNavigateToFlow env flows t st = .ok r := by
  cases hf : flows.find? (fun flow => flow.name == t) with
  | none => simp [createOrNavigateToFlow, createNewFlow, hf, hsave]
  | some f => simp [createOrNavigateToFlow, hf, hsave]

/-- C1 (amended): in a share activation whose manifest is successfully
read with a positive `fileCount` and in which steps 3-7 raise no
exception (here: the store write succeeds, the only exception source of
those steps in the model), the Transfer Cache entries `shareData` and
`file-0` .. `file-(fileCount-1)` are all deleted by the end of
processing.  As stated the claim is false: an exception during steps 3-7
jumps to the `catch` and skips the cleanup (see
`processShare_cleanup_skipped_on_throw`). -/
theorem processShare_cleanup_on_success (env : ShareEnv) (cache : Cache)
    (flows : List Flow) (d : ShareData)
    (hshared : env.isShared = true) (hsave : env.saveFlowsOk = true)
    (hmanifest : (cacheMatch cache "shareData").bind entryJson = some d)
    (hcount : 0 < d.fileCount) :
    cacheMatch (processShareTargetData env cache flows).cache "shareData" = none ∧
    ∀ i < d.fileCount.toNat,
      cacheMatch (processShareTargetData env cache flows).cache (fileKey i) = none := by
  obtain ⟨entry, hent, hjson⟩ :
      ∃ e, cacheMatch cache "shareData" = some e ∧ entryJson e = some d := by
    cases he : cacheMatch cache "shareData" with
    | none => rw [he] at hmanifest; cases hmanifest
    | some e => exact ⟨e, rfl, by rw [he] at hmanifest; exact hmanifest⟩
  obtain ⟨r, hr⟩ := createOrNavigateToFlow_ok env flows
    (determineFlowConfiguration d).1 (determineFlowConfiguration d).2 hsave
  obtain ⟨flows1, tgt⟩ := r
  have hno : ¬ d.fileCount ≤ 0 := by omega
  have hcache : (processShareTargetData env cache flows).cache = cleanupShareCache cache d := by
    simp [processShareTargetData, hshared, hent, hjson, hno, hr]
  rw [hcache]
  exact cleanupShareCache_clears cache d

/-- Witness for `processShare_cleanup_on_success`: one staged file, a
succeeding store; both cache entries are gone afterwards. -/
theorem processShare_cleanup_on_success_witness :
    cacheMatch (processShareTargetData ⟨true, true, 7⟩
      [("shareData", CacheEntry.manifest (some ⟨1, none, none, none⟩)),
       ("file-0", CacheEntry.blob ⟨"image/png", "p0"⟩)] []).cache "shareData" = none ∧
    cacheMatch (processShareTargetData ⟨true, true, 7⟩
      [("shareData", CacheEntry.manifest (some ⟨1, none, none, none⟩)),
       ("file-0", CacheEntry.blob ⟨"image/png", "p0"⟩)] []).cache (fileKey 0) = none :=
  ⟨(processShare_cleanup_on_success ⟨true, true, 7⟩
      [("shareData", CacheEntry.manifest (some ⟨1, none, none, none⟩)),
       ("file-0", CacheEntry.blob ⟨"image/png", "p0"⟩)] [] ⟨1, none, none, none⟩
      rfl rfl (by decide) (by decide)).1,
   (processShare_cleanup_on_success ⟨true, true, 7⟩
      [("shareData", CacheEntry.manifest (some ⟨1, none, none, none⟩)),
       ("file-0", CacheEntry.blob ⟨"image/png", "p0"⟩)] [] ⟨1, none, none, none⟩
      rfl rfl (by decide) (by decide)).2 0 (by decide)⟩

/-- C1 is false as stated: in this activation the manifest is
successfully read (first conjunct), but the store write inside step 5
throws, the exception is caught after the cleanup call was skipped, and
the cache still holds the manifest and the blob afterwards. -/
theorem processShare_cleanup_skipped_on_throw :
    (cacheMatch [("shareData", CacheEntry.manifest (some (⟨1, none, none, none⟩ : ShareData))),
       ("file-0", CacheEntry.blob ⟨"image/png", "p0"⟩)] "shareData").bind entryJson
        = some ⟨1, none, none, none⟩ ∧
    (processShareTargetData ⟨true, false, 42⟩
      [("shareData", CacheEntry.manifest (some ⟨1, none, none, none⟩)),
       ("file-0", CacheEntry.blob ⟨"image/png", "p0"⟩)] []).cache
      = [("shareData", CacheEntry.manifest (some ⟨1, none, none, none⟩)),
         ("file-0", CacheEntry.blob ⟨"image/png", "p0"⟩)] := by
  decide

/-- C4 (amended): the `?share=true` marker is scrubbed exactly under
`scrubHappens` — on the success path and on every caught-exception path,
but NOT on the missing-manifest or `fileCount <= 0` early returns, which
skip the scrub.  As stated ("after every share-target activation,
regardless of outcome") the claim is false: see
`processShare_scrub_skipped_cx`. -/
theorem processShare_scrub_iff (env : ShareEnv) (cache : Cache) (flows : List Flow) :
    (processShareTargetData env cache flows).urlScrubbed = scrubHappens env cache := by
  cases hs : env.isShared with
  | false => simp [processShareTargetData, scrubHappens, hs]
  | true =>
    cases hent : cacheMatch cache "shareData" with
    | none => simp [processShareTargetData, scrubHappens, hs, hent]
    | some e =>
      cases hj : entryJson e with
      | none => simp [processShareTargetData, scrubHappens, hs, hent, hj]
      | some d =>
        by_cases hc : d.fileCount ≤ 0
        · have : ¬ (0 : Int) < d.fileCount := by omega
          simp [processShareTargetData, scrubHappens, hs, hent, hj, hc, this]
        · cases hcr : createOrNavigateToFlow env flows
            (determineFlowConfiguration d).1 (determineFlowConfiguration d).2 with
          | error fl =>
            have : (0 : Int) < d.fileCount := by omega
            simp [processShareTargetData, scrubHappens, hs, hent, hj, hc, hcr, this]
          | ok r =>
            obtain ⟨fl, tg⟩ := r
            have : (0 : Int) < d.fileCount := by omega
            simp [processShareTargetData, scrubHappens, hs, hent, hj, hc, hcr, this]

/-- C4 is false as stated: a share activation whose manifest was read
with `fileCount = 0` takes the early return and never removes the
activation marker from the URL. -/
theorem processShare_scrub_skipped_cx :
    (processShareTargetData ⟨true, true, 0⟩
      [("shareData", CacheEntry.manifest (some ⟨0, none, none, none⟩))] []).urlScrubbed
      = false := by
  decide

/-- C6: parsing the custom URI `web+wami://resize/250` yields exactly the
step list `[{type: "resize-width-if-larger", params: [250]}]` and the
flow title `"resize 250"`. -/
theorem parseWebWamiUrl_resize250 :
    parseWebWamiUrl "web+wami://resize/250" =
      some ⟨"resize 250", [⟨"resize-width-if-larger", [PVal.num 250]⟩]⟩ := by
  decide

/-- When `find?` hits, `replaceFirst` is `set` at the first hit index. -/
theorem find_replaceFirst_set {α : Type} (p : α → Bool) (v f : α) (l : List α)
    (h : l.find? p = some f) :
    ∃ i, l[i]? = some f ∧ (∀ j, j < i → ∀ x, l[j]? = some x → p x = false) ∧
      replaceFirst p v l = l.set i v := by
  induction l with
  | nil => cases h
  | cons a rest ih =>
    by_cases ha : p a = true
    · rw [List.find?_cons_of_pos rest ha] at h
      obtain rfl : a = f := by injection h
      exact ⟨0, List.getElem?_cons_zero, by omega, by simp [replaceFirst, ha]⟩
    · rw [List.find?_cons_of_neg rest ha] at h
      obtain ⟨i, hi, hbef, hrep⟩ := ih h
      refine ⟨i + 1, by simpa using hi, ?_, ?_⟩
      · intro j hj x hx
        cases j with
        | zero =>
          rw [List.getElem?_cons_zero] at hx
          obtain rfl : a = x := by injection hx
          exact Bool.eq_false_iff.mpr ha
        | succ j2 =>
          exact hbef j2 (by omega) x (by simpa using hx)
      · simp [replaceFirst, ha, hrep, List.set_cons_succ]

/-- `findIdx?` returns `i` when the element there matches and everything
before it does not. -/
theorem findIdx_eq_some_of {α : Type} (l : List α) (p : α → Bool) (i : Nat) (x : α)
    (hx : l[i]? = some x) (hpx : p x = true)
    (hbefore : ∀ j, j < i → ∀ y, l[j]? = some y → p y = false) :
    l.findIdx? p = some i := by
  induction l generalizing i with
  | nil => cases hx
  | cons a rest ih =>
    cases i with
    | zero =>
      rw [List.getElem?_cons_zero] at hx
      obtain rfl : a = x := by injection hx
      simp [List.findIdx?_cons, hpx]
    | succ i2 =>
      have ha : p a = false := hbefore 0 (by omega) a List.getElem?_cons_zero
      have ihr := ih i2 (by simpa using hx)
        (fun j hj y hy => hbefore (j + 1) (by omega) y (by simpa using hy))
      simp [List.findIdx?_cons, ha, List.findIdx?_succ, ihr]

/-- C5 (amended): for a resolved intent with a succeeding store write,
if some existing flow's name exactly equals the resolved title, the FIRST
such flow has its steps overwritten in place (all other entries and the
collection length unchanged — no duplicate is created) and it becomes the
target; if no flow matches and the resolved title is non-empty, a new
flow with the resolved title and steps is appended and becomes the
target.  As stated the claim is false for the reachable empty resolved
title, where the created flow is named "Untitled flow" instead: see
`createOrNavigateToFlow_empty_title_cx`. -/
theorem createOrNavigateToFlow_reuse (env : ShareEnv) (flows : List Flow)
    (title : String) (steps : List Step) (hsave : env.saveFlowsOk = true) :
    (∀ f, flows.find? (fun g => g.name == title) = some f →
      (∀ g ∈ flows, g.id = f.id → g = f) →
      ∃ i, flows[i]? = some f ∧
        createOrNavigateToFlow env flows title steps =
          .ok (flows.set i { f with steps := steps }, { f with steps := steps }) ∧
        (flows.set i { f with steps := steps }).length = flows.length) ∧
    (flows.find? (fun g => g.name == title) = none → title ≠ "" →
      createOrNavigateToFlow env flows title steps =
        .ok (flows ++ [⟨env.freshId, title, steps⟩], ⟨env.freshId, title, steps⟩)) := by
  constructor
  · intro f hfind huniq
    obtain ⟨i, hi, hbef, hrep⟩ :=
      find_replaceFirst_set (fun g => g.name == title) { f with steps := steps } f flows hfind
    have hlt : i < flows.length := (List.getElem?_eq_some_iff.mp hi).1
    have hfname : (f.name == title) = true := by
      have h2 := List.find?_some hfind
      exact h2
    have hidx : (flows.set i { f with steps := steps }).findIdx?
        (fun flow => flow.id == ({ f with steps := steps } : Flow).id) = some i := by
      apply findIdx_eq_some_of _ _ i ({ f with steps := steps } : Flow)
      · exact List.getElem?_set_self (by simpa using hlt)
      · simp
      · intro j hj y hy
        rw [List.getElem?_set_ne (by omega)] at hy
        have hymem : y ∈ flows := by
          obtain ⟨hjl, hje⟩ := List.getElem?_eq_some_iff.mp hy
          exact hje ▸ List.getElem_mem hjl
        show (y.id == f.id) = false
        rcases Bool.eq_false_or_eq_true (y.id == f.id) with hb | hb
        swap
        · exact hb
        · have hyf : y = f := huniq y hymem (by simpa using hb)
          have hn : (y.name == title) = false := hbef j hj y hy
          rw [hyf, hfname] at hn
          cases hn
    refine ⟨i, hi, ?_, by simp⟩
    simp only [createOrNavigateToFlow, hfind, hrep, hidx, List.set_set, hsave, if_true]
  · intro hfind htitle
    simp [createOrNavigateToFlow, createNewFlow, hfind, htitle, hsave]

/-- Witness for `createOrNavigateToFlow_reuse`: a matching flow named
`"t"` is overwritten in place, and a fresh title `"u"` appends a new
flow. -/
theorem createOrNavigateToFlow_reuse_witness :
    (∃ i, ([⟨1, "t", []⟩] : List Flow)[i]? = some ⟨1, "t", []⟩ ∧
      createOrNavigateToFlow ⟨true, true, 9⟩ [⟨1, "t", []⟩] "t" [⟨"flip", []⟩] =
        .ok (([⟨1, "t", []⟩] : List Flow).set i ⟨1, "t", [⟨"flip", []⟩]⟩,
          ⟨1, "t", [⟨"flip", []⟩]⟩) ∧
      (([⟨1, "t", []⟩] : List Flow).set i ⟨1, "t", [⟨"flip", []⟩]⟩).length =
        ([⟨1, "t", []⟩] : List Flow).length) ∧
    createOrNavigateToFlow ⟨true, true, 9⟩ [⟨1, "t", []⟩] "u" [⟨"flip", []⟩] =
      .ok ([⟨1, "t", []⟩, ⟨9, "u", [⟨"flip", []⟩]⟩], ⟨9, "u", [⟨"flip", []⟩]⟩) :=
  ⟨(createOrNavigateToFlow_reuse ⟨true, true, 9⟩ [⟨1, "t", []⟩] "t" [⟨"flip", []⟩] rfl).1
      ⟨1, "t", []⟩ (by decide) (by decide),
   (createOrNavigateToFlow_reuse ⟨true, true, 9⟩ [⟨1, "t", []⟩] "u" [⟨"flip", []⟩] rfl).2
      (by decide) (by decide)⟩

/-- C5 is false as stated: the reachable activation URL `web+wami:///`
resolves to the empty title (first conjunct), and with no matching flow
the created flow is named `"Untitled flow"`, not the resolved title. -/
theorem createOrNavigateToFlow_empty_title_cx :
    determineFlowConfiguration ⟨1, none, none, some "web+wami:///"⟩ =
      ("", [⟨"resize-width-if-larger", [PVal.num 1000]⟩]) ∧
    createOrNavigateToFlow ⟨true, true, 5⟩ [] "" [⟨"resize-width-if-larger", [PVal.num 1000]⟩] =
      .ok ([⟨5, "Untitled flow", [⟨"resize-width-if-larger", [PVal.num 1000]⟩]⟩],
        ⟨5, "Untitled flow", [⟨"resize-width-if-larger", [PVal.num 1000]⟩]⟩) ∧
    ("Untitled flow" : String) ≠ "" := by
  exact ⟨by decide, rfl, by decide⟩

/-- C9 (amended): every share-loaded image's write handle resolves to
absent, and for each index `i < fileCount` whose blob is present in the
cache, the loaded image is part of the input batch and is named
`manifest.fileNames[i]` when that entry is present AND non-empty, else
`shared-<i+1>.<ext>` with the extension from the fixed MIME table
(default `jpg`).  As stated the claim is false for a present-but-empty
`fileNames` entry: see `loadSharedImages_empty_name_cx`. -/
theorem loadSharedImages_naming (shareCache : Cache) (shareData : ShareData) :
    (∀ img ∈ loadAndProcessSharedImages shareCache shareData, img.fsHandle = none) ∧
    (∀ i e, i < shareData.fileCount.toNat → cacheMatch shareCache (fileKey i) = some e →
      ∃ img, loadSharedImage shareCache shareData i = some img ∧
        img ∈ loadAndProcessSharedImages shareCache shareData ∧
        img.fsHandle = none ∧
        img.file.name =
          (match shareData.fileNames with
           | some names =>
             match names[i]? with
             | some nm => if nm = "" then sharedFallbackName i (entryBlob e) else nm
             | none => sharedFallbackName i (entryBlob e)
           | none => sharedFallbackName i (entryBlob e))) := by
  constructor
  · intro img hmem
    rcases List.mem_filterMap.mp hmem with ⟨i, _, hload⟩
    cases hcm : cacheMatch shareCache (fileKey i) with
    | none => rw [loadSharedImage, hcm] at hload; cases hload
    | some e =>
      rw [loadSharedImage, hcm] at hload
      obtain rfl :
          (⟨⟨_, (entryBlob e).type, (entryBlob e).content⟩, none⟩ : InputImage) = img := by
        injection hload
      rfl
  · intro i e hi he
    have hload : loadSharedImage shareCache shareData i =
        some ⟨⟨(match shareData.fileNames with
                | some names =>
                  match names[i]? with
                  | some nm => if nm = "" then sharedFallbackName i (entryBlob e) else nm
                  | none => sharedFallbackName i (entryBlob e)
                | none => sharedFallbackName i (entryBlob e)),
               (entryBlob e).type, (entryBlob e).content⟩, none⟩ := by
      rw [loadSharedImage, he]
    refine ⟨_, hload, ?_, rfl, rfl⟩
    exact List.mem_filterMap.mpr ⟨i, List.mem_range.mpr hi, hload⟩

/-- Witness for `loadSharedImages_naming` at the spec's own example: the
manifest `{fileCount: 1, fileNames: ["cat.png"]}` with one cached blob
yields exactly one input image named `"cat.png"` with an absent
handle. -/
theorem loadSharedImages_naming_witness :
    ∃ img, loadSharedImage [("file-0", CacheEntry.blob ⟨"image/jpeg", "x"⟩)]
        ⟨1, some ["cat.png"], none, none⟩ 0 = some img ∧
      img ∈ loadAndProcessSharedImages [("file-0", CacheEntry.blob ⟨"image/jpeg", "x"⟩)]
        ⟨1, some ["cat.png"], none, none⟩ ∧
      img.fsHandle = none ∧
      img.file.name = "cat.png" :=
  (loadSharedImages_naming [("file-0", CacheEntry.blob ⟨"image/jpeg", "x"⟩)]
    ⟨1, some ["cat.png"], none, none⟩).2 0 (CacheEntry.blob ⟨"image/jpeg", "x"⟩)
    (by decide) (by decide)

/-- C9 is false as stated: with manifest `{fileCount: 1, fileNames: [""]}`
and one cached blob, `fileNames[0]` is present (second conjunct), yet the
image is named by the generated fallback, not by the present entry. -/
theorem loadSharedImages_empty_name_cx :
    loadAndProcessSharedImages [("file-0", CacheEntry.blob ⟨"image/png", "p"⟩)]
        ⟨1, some [""], none, none⟩ =
      [⟨⟨"shared-1.png", "image/png", "p"⟩, none⟩] ∧
    ((⟨1, some [""], none, none⟩ : ShareData).fileNames.bind (fun names => names[0]?)) =
      some "" ∧
    ("shared-1.png" : String) ≠ "" := by
  decide

/-- When every output's first name-match carries a present handle, the
save loop writes every output in order and does not throw. -/
theorem saveLoop_all_ok (currentImages : List InputImage) (outputs : List OutFile)
    (h : ∀ o ∈ outputs, firstMatchHasHandle currentImages o = true) :
    saveLoop currentImages outputs =
      (outputs.filterMap (expectedWrite currentImages), false) := by
  induction outputs with
  | nil => rfl
  | cons o rest ih =>
    have ho : firstMatchHasHandle currentImages o = true := h o (by simp)
    cases hfind : currentImages.find? (fun i => i.file.name == o.name) with
    | none => simp [firstMatchHasHandle, hfind] at ho
    | some img =>
      simp only [firstMatchHasHandle, hfind] at ho
      cases hh : img.fsHandle with
      | none => rw [hh] at ho; cases ho
      | some hd =>
        have ihr := ih (fun o2 ho2 => h o2 (List.mem_cons_of_mem _ ho2))
        simp [saveLoop, hfind, hh, ihr, List.filterMap_cons, expectedWrite]

/-- C3 (amended): the whole save is a no-op when the input and output
counts differ (and when there are no outputs); any write at all implies
the counts matched; and when additionally every output's FIRST
name-matching input resolves to a present handle, all outputs are written
in order without throwing.  As stated the claim is false: the name-match
and handle checks are per-file, so a failure midway keeps the earlier
writes — see `saveImagesClick_partial_cx`. -/
theorem saveImagesClick_guard (currentImages : List InputImage)
    (outputImages : List OutFile) :
    (currentImages.length ≠ outputImages.length →
      saveImagesClick currentImages outputImages = ([], false)) ∧
    ((saveImagesClick currentImages outputImages).1 ≠ [] →
      currentImages.length = outputImages.length ∧ outputImages ≠ []) ∧
    (currentImages.length = outputImages.length →
      (∀ o ∈ outputImages, firstMatchHasHandle currentImages o = true) →
      saveImagesClick currentImages outputImages =
        (outputImages.filterMap (expectedWrite currentImages), false)) := by
  refine ⟨?_, ?_, ?_⟩
  · intro hne
    by_cases h0 : outputImages.length = 0
    · simp [saveImagesClick, h0]
    · simp [saveImagesClick, h0, hne]
  · intro hw
    have hempty : outputImages ≠ [] := by
      intro h0
      rw [h0] at hw
      simp [saveImagesClick] at hw
    refine ⟨?_, hempty⟩
    by_contra hne
    have hz : saveImagesClick currentImages outputImages = ([], false) := by
      by_cases h0 : outputImages.length = 0
      · simp [saveImagesClick, h0]
      · simp [saveImagesClick, h0, hne]
    rw [hz] at hw
    exact hw rfl
  · intro hlen hall
    by_cases h0 : outputImages.length = 0
    · have hnil : outputImages = [] := List.length_eq_zero.mp h0
      subst hnil
      simp [saveImagesClick, saveLoop]
    · have : saveImagesClick currentImages outputImages = saveLoop currentImages outputImages := by
        simp [saveImagesClick, h0, hlen]
      rw [this]
      exact saveLoop_all_ok currentImages outputImages hall

/-- Witness for `saveImagesClick_guard`: a count mismatch writes nothing,
and a matched batch with a present handle writes its single output. -/
theorem saveImagesClick_guard_witness :
    saveImagesClick [⟨⟨"a", "image/png", "A"⟩, some 1⟩] [] = ([], false) ∧
    saveImagesClick [⟨⟨"a", "image/png", "A"⟩, some 1⟩] [⟨"a", "w"⟩] =
      ([⟨"a", "w"⟩].filterMap (expectedWrite [⟨⟨"a", "image/png", "A"⟩, some 1⟩]), false) :=
  ⟨(saveImagesClick_guard [⟨⟨"a", "image/png", "A"⟩, some 1⟩] []).1 (by decide),
   (saveImagesClick_guard [⟨⟨"a", "image/png", "A"⟩, some 1⟩] [⟨"a", "w"⟩]).2.2
     (by decide) (by decide)⟩

/-- C3 is false as stated: the batches have equal length but the second
output's only name-match has an absent handle, so the spec's
`canSaveInPlace` precondition fails — yet the handler writes the first
output's bytes before throwing on the second: a per-file partial save,
not a whole-save no-op. -/
theorem saveImagesClick_partial_cx :
    saveImagesClick
        [⟨⟨"a", "image/png", "A"⟩, some 1⟩, ⟨⟨"b", "image/png", "B"⟩, none⟩]
        [⟨"a", "outA"⟩, ⟨"b", "outB"⟩] = ([(1, "outA")], true) ∧
    ¬ canSaveInPlace
        [⟨⟨"a", "image/png", "A"⟩, some 1⟩, ⟨⟨"b", "image/png", "B"⟩, none⟩]
        [⟨"a", "outA"⟩, ⟨"b", "outB"⟩] := by
  constructor
  · decide
  · unfold canSaveInPlace
    decide

/-- `findIdx?` only returns indices below the length. -/
theorem findIdx_lt_length {α : Type} (p : α → Bool) (l : List α) (i : Nat)
    (h : l.findIdx? p = some i) : i < l.length := by
  induction l generalizing i with
  | nil => cases h
  | cons a rest ih =>
    rw [List.findIdx?_cons] at h
    by_cases ha : p a = true
    · rw [if_pos ha] at h
      injection h with h2
      simp [← h2]
    · rw [if_neg ha, List.findIdx?_succ] at h
      cases hr : rest.findIdx? p with
      | none => rw [hr] at h; cases h
      | some i2 =>
        rw [hr] at h
        simp at h
        have := ih i2 hr
        simp only [List.length_cons]
        omega

/-- C8: committing an editor change replaces only the collection entry
`findIndex` locates by the current flow's id; every other index is
unchanged and the length (hence the order of the rest) is preserved.
When the id is absent the collection's elements are untouched (the JS
`flows[-1] = ...` writes a non-index property). -/
theorem handleFlowChange_frame (ed : EditorState) (currentFlow : Flow)
    (flows : List Flow) :
    (handleFlowChange ed currentFlow flows).2.length = flows.length ∧
    (∀ j : Nat, flows.findIdx? (fun f => f.id == currentFlow.id) ≠ some j →
      (handleFlowChange ed currentFlow flows).2[j]? = flows[j]?) ∧
    (∀ j : Nat, flows.findIdx? (fun f => f.id == currentFlow.id) = some j →
      (handleFlowChange ed currentFlow flows).2[j]? =
        some (handleFlowChange ed currentFlow flows).1) := by
  cases hidx : flows.findIdx? (fun f => f.id == currentFlow.id) with
  | none =>
    refine ⟨?_, ?_, ?_⟩
    · simp [handleFlowChange, hidx]
    · intro j _
      simp [handleFlowChange, hidx]
    · intro j hj
      simp at hj
  | some i =>
    have hlt : i < flows.length := findIdx_lt_length _ _ _ hidx
    refine ⟨?_, ?_, ?_⟩
    · simp [handleFlowChange, hidx]
    · intro j hj
      have hne : i ≠ j := fun he => hj (by rw [he])
      simp only [handleFlowChange, hidx]
      exact List.getElem?_set_ne hne
    · intro j hj
      injection hj with hj2
      subst hj2
      simp only [handleFlowChange, hidx]
      exact List.getElem?_set_self hlt

/-- Witness for `handleFlowChange_frame`: in a two-flow collection the
entry with the current id (index 1) is replaced, index 0 is untouched,
and the length is preserved. -/
theorem handleFlowChange_frame_witness :
    (handleFlowChange ⟨[("rotate", ["90"])], "nm"⟩ ⟨2, "old", []⟩
      [⟨1, "a", []⟩, ⟨2, "old", []⟩]).2.length =
      ([⟨1, "a", []⟩, ⟨2, "old", []⟩] : List Flow).length ∧
    (handleFlowChange ⟨[("rotate", ["90"])], "nm"⟩ ⟨2, "old", []⟩
      [⟨1, "a", []⟩, ⟨2, "old", []⟩]).2[0]? =
      ([⟨1, "a", []⟩, ⟨2, "old", []⟩] : List Flow)[0]? ∧
    (handleFlowChange ⟨[("rotate", ["90"])], "nm"⟩ ⟨2, "old", []⟩
      [⟨1, "a", []⟩, ⟨2, "old", []⟩]).2[1]? =
      some (handleFlowChange ⟨[("rotate", ["90"])], "nm"⟩ ⟨2, "old", []⟩
        [⟨1, "a", []⟩, ⟨2, "old", []⟩]).1 :=
  ⟨(handleFlowChange_frame ⟨[("rotate", ["90"])], "nm"⟩ ⟨2, "old", []⟩
      [⟨1, "a", []⟩, ⟨2, "old", []⟩]).1,
   (handleFlowChange_frame ⟨[("rotate", ["90"])], "nm"⟩ ⟨2, "old", []⟩
      [⟨1, "a", []⟩, ⟨2, "old", []⟩]).2.1 0 (by decide),
   (handleFlowChange_frame ⟨[("rotate", ["90"])], "nm"⟩ ⟨2, "old", []⟩
      [⟨1, "a", []⟩, ⟨2, "old", []⟩]).2.2 1 (by decide)⟩

/-- The initial run-machine state satisfies the invariant. -/
theorem runInv_init : RunInv initRunMachine := by
  refine ⟨rfl, rfl, ?_, ?_, List.Pairwise.nil⟩
  · intro k hk
    cases hk
  · intro e he
    simp [initRunMachine] at he

/-- Every event step preserves the run-machine invariant. -/
theorem runInv_step (s : RunMachine) (e : RunEvent) (h : RunInv s) :
    RunInv (runStep s e) := by
  obtain ⟨h1, h2, h3, h4, h5⟩ := h
  cases e with
  | setImages l => exact ⟨h1, h2, h3, h4, h5⟩
  | click =>
    by_cases hd : s.buttonDisabled = true
    · simpa [runStep, hd] using ⟨h1, h2, h3, h4, h5⟩
    · by_cases hi : s.images.isEmpty = true
      · simpa [runStep, hd, hi] using ⟨h1, h2, h3, h4, h5⟩
      · simp only [runStep, hd, hi, if_false, Bool.false_eq_true]
        refine ⟨rfl, rfl, ?_, ?_, ?_⟩
        · intro k hk
          injection hk with hk2
          refine ⟨?_, rfl⟩
          dsimp only
          omega
        · intro e he k hke
          dsimp only
          rcases List.mem_append.mp he with hold | hnew
          · have := h4 e hold k hke
            omega
          · simp at hnew
            rcases hke with hke | hke <;> rw [hnew] at hke
            · injection hke with hke2
              omega
            · cases hke
        · rw [NoStalePublish, List.pairwise_append]
          refine ⟨h5, List.pairwise_singleton _ _, ?_⟩
          intro a _ b hb j k haj hbk
          simp at hb
          rw [hb] at hbk
          cases hbk
  | engineDone result =>
    cases hf : s.inFlight with
    | none => simpa [runStep, hf] using ⟨h1, h2, h3, h4, h5⟩
    | some k =>
      obtain ⟨hk1, hk2⟩ := h3 k hf
      cases result with
      | none =>
        simp only [runStep, hf]
        refine ⟨rfl, rfl, ?_, h4, h5⟩
        intro k2 hk
        cases hk
      | some outs =>
        simp only [runStep, hf]
        refine ⟨rfl, rfl, ?_, ?_, ?_⟩
        · intro k2 hk
          cases hk
        · intro e he k2 hke
          dsimp only
          rcases List.mem_append.mp he with hold | hnew
          · exact h4 e hold k2 hke
          · simp at hnew
            rcases hke with hke | hke <;> rw [hnew] at hke
            · cases hke
            · injection hke with hke2
              omega
        · rw [NoStalePublish, List.pairwise_append]
          refine ⟨h5, List.pairwise_singleton _ _, ?_⟩
          intro a ha b hb j k2 haj hbk
          simp at hb
          rw [hb] at hbk
          injection hbk with hbk2
          have hj := h4 a ha j (Or.inl haj)
          omega

/-- The invariant holds along any event sequence. -/
theorem runInv_foldl (events : List RunEvent) (s : RunMachine) (h : RunInv s) :
    RunInv (events.foldl runStep s) := by
  induction events generalizing s with
  | nil => exact h
  | cons e rest ih => exact ih (runStep s e) (runInv_step s e h)

/-- C2: at most one run is in flight at any time — after any event
sequence from app start, a run trigger while a run is in flight is a
no-op (the disabled-state guard swallows the click), and the history
never records an earlier run's outputs being published after a later run
has started (`NoStalePublish`). -/
theorem runFlow_single_flight (events : List RunEvent) :
    ((runTrace events).inFlight.isSome = true →
      runStep (runTrace events) RunEvent.click = runTrace events) ∧
    NoStalePublish (runTrace events).log := by
  have hInv := runInv_foldl events initRunMachine runInv_init
  rw [show events.foldl runStep initRunMachine = runTrace events from rfl] at hInv
  obtain ⟨h1, h2, h3, h4, h5⟩ := hInv
  refine ⟨?_, h5⟩
  intro hsome
  have hd : (runTrace events).buttonDisabled = true := by rw [h1, hsome]
  simp [runStep, hd]

/-- Witness for `runFlow_single_flight`: after loading an image and
clicking once, a run is in flight and a second click changes nothing. -/
theorem runFlow_single_flight_witness :
    (runTrace [RunEvent.setImages ["a"], RunEvent.click]).inFlight.isSome = true ∧
    runStep (runTrace [RunEvent.setImages ["a"], RunEvent.click]) RunEvent.click =
      runTrace [RunEvent.setImages ["a"], RunEvent.click] ∧
    NoStalePublish (runTrace [RunEvent.setImages ["a"], RunEvent.click]).log :=
  ⟨by decide,
   (runFlow_single_flight [RunEvent.setImages ["a"], RunEvent.click]).1 (by decide),
   (runFlow_single_flight [RunEvent.setImages ["a"], RunEvent.click]).2⟩

/-- C7: when the engine resolves the in-flight run with a failure result,
the handler publishes nothing (the publish history is unchanged and the
output display, cleared at run start, stays empty), removes the `running`
indicator, re-enables the run trigger, and starts no new run (no
automatic retry: nothing is in flight and the run count is unchanged). -/
theorem engineFailure_no_publish (events : List RunEvent) (k : Nat)
    (h : (runTrace events).inFlight = some k) :
    (runStep (runTrace events) (RunEvent.engineDone none)).published =
      (runTrace events).published ∧
    (runStep (runTrace events) (RunEvent.engineDone none)).displayed = [] ∧
    (runStep (runTrace events) (RunEvent.engineDone none)).running = false ∧
    (runStep (runTrace events) (RunEvent.engineDone none)).buttonDisabled = false ∧
    (runStep (runTrace events) (RunEvent.engineDone none)).inFlight = none ∧
    (runStep (runTrace events) (RunEvent.engineDone none)).startedRuns =
      (runTrace events).startedRuns := by
  have hInv := runInv_foldl events initRunMachine runInv_init
  rw [show events.foldl runStep initRunMachine = runTrace events from rfl] at hInv
  obtain ⟨h1, h2, h3, h4, h5⟩ := hInv
  have hdisp : (runTrace events).displayed = [] := (h3 k h).2
  simp [runStep, h, hdisp]

/-- Witness for `engineFailure_no_publish`: one loaded image, one click,
then an engine failure — nothing published, indicator cleared, button
re-enabled, no retry. -/
theorem engineFailure_no_publish_witness :
    (runStep (runTrace [RunEvent.setImages ["a"], RunEvent.click])
        (RunEvent.engineDone none)).published =
      (runTrace [RunEvent.setImages ["a"], RunEvent.click]).published ∧
    (runStep (runTrace [RunEvent.setImages ["a"], RunEvent.click])
        (RunEvent.engineDone none)).displayed = [] ∧
    (runStep (runTrace [RunEvent.setImages ["a"], RunEvent.click])
        (RunEvent.engineDone none)).running = false ∧
    (runStep (runTrace [RunEvent.setImages ["a"], RunEvent.click])
        (RunEvent.engineDone none)).buttonDisabled = false ∧
    (runStep (runTrace [RunEvent.setImages ["a"], RunEvent.click])
        (RunEvent.engineDone none)).inFlight = none ∧
    (runStep (runTrace [RunEvent.setImages ["a"], RunEvent.click])
        (RunEvent.engineDone none)).startedRuns =
      (runTrace [RunEvent.setImages ["a"], RunEvent.click]).startedRuns :=
  engineFailure_no_publish [RunEvent.setImages ["a"], RunEvent.click] 0 (by decide)

/-- C10: when there are outputs to view, the view-images handler sorts
both the current output list and the current input batch in place by
name under the comparator (the same images, reordered), so a subsequent
run receives the inputs in name-sorted order rather than load order. -/
theorem viewImages_sorts_in_place (lc : String → String → Bool)
    (htrans : ∀ a b c, lc a b = true → lc b c = true → lc a c = true)
    (htot : ∀ a b, (lc a b || lc b a) = true)
    (st : ViewState) (hout : st.outputImages ≠ []) :
    ((viewImagesClick lc st).currentImages).Perm st.currentImages ∧
    ((viewImagesClick lc st).outputImages).Perm st.outputImages ∧
    (runEngineInputs (viewImagesClick lc st)).Pairwise
      (fun a b => lc a.name b.name = true) ∧
    ((viewImagesClick lc st).outputImages).Pairwise
      (fun a b => lc a.name b.name = true) := by
  have h0 : ¬ st.outputImages.length = 0 := by
    simpa [List.length_eq_zero] using hout
  have htransIn : ∀ a b c : InputImage, lc a.file.name b.file.name = true →
      lc b.file.name c.file.name = true → lc a.file.name c.file.name = true :=
    fun a b c hab hbc => htrans _ _ _ hab hbc
  have htotIn : ∀ a b : InputImage,
      (lc a.file.name b.file.name || lc b.file.name a.file.name) = true :=
    fun a b => htot _ _
  have htransOut : ∀ a b c : OutFile, lc a.name b.name = true →
      lc b.name c.name = true → lc a.name c.name = true :=
    fun a b c hab hbc => htrans _ _ _ hab hbc
  have htotOut : ∀ a b : OutFile, (lc a.name b.name || lc b.name a.name) = true :=
    fun a b => htot _ _
  simp only [viewImagesClick, h0, if_false, runEngineInputs]
  refine ⟨List.mergeSort_perm _ _, List.mergeSort_perm _ _, ?_, ?_⟩
  · rw [List.pairwise_map]
    exact @List.sorted_mergeSort _ (fun a b => lc a.file.name b.file.name)
      htransIn htotIn st.currentImages
  · exact @List.sorted_mergeSort _ (fun a b => lc a.name b.name)
      htransOut htotOut st.outputImages

/-- Witness for `viewImages_sorts_in_place` with the length-based total
order on names: two inputs and one output, sorted after viewing. -/
theorem viewImages_sorts_in_place_witness :
    ((viewImagesClick (fun a b => decide (a.length ≤ b.length))
        ⟨[⟨⟨"bb", "t", "B"⟩, none⟩, ⟨⟨"a", "t", "A"⟩, none⟩],
         [⟨"o", "O"⟩]⟩).currentImages).Perm
      [⟨⟨"bb", "t", "B"⟩, none⟩, ⟨⟨"a", "t", "A"⟩, none⟩] ∧
    ((viewImagesClick (fun a b => decide (a.length ≤ b.length))
        ⟨[⟨⟨"bb", "t", "B"⟩, none⟩, ⟨⟨"a", "t", "A"⟩, none⟩],
         [⟨"o", "O"⟩]⟩).outputImages).Perm [⟨"o", "O"⟩] ∧
    (runEngineInputs (viewImagesClick (fun a b => decide (a.length ≤ b.length))
        ⟨[⟨⟨"bb", "t", "B"⟩, none⟩, ⟨⟨"a", "t", "A"⟩, none⟩],
         [⟨"o", "O"⟩]⟩)).Pairwise
      (fun a b => decide (a.name.length ≤ b.name.length) = true) ∧
    ((viewImagesClick (fun a b => decide (a.length ≤ b.length))
        ⟨[⟨⟨"bb", "t", "B"⟩, none⟩, ⟨⟨"a", "t", "A"⟩, none⟩],
         [⟨"o", "O"⟩]⟩).outputImages).Pairwise
      (fun a b => decide (a.name.length ≤ b.name.length) = true) :=
  viewImages_sorts_in_place (fun a b => decide (a.length ≤ b.length))
    (fun a b c hab hbc => by
      simp only [decide_eq_true_eq] at hab hbc ⊢
      omega)
    (fun a b => by
      rcases Nat.le_total a.length b.length with h | h <;> simp [h])
    ⟨[⟨⟨"bb", "t", "B"⟩, none⟩, ⟨⟨"a", "t", "A"⟩, none⟩], [⟨"o", "O"⟩]⟩
    (by decide)

end Wami
